import Mathlib

/-!
Verification of the duplicate-grouping and ranking pipeline of
`ai_photo_evaluator.py` (class `AIPhotoEvaluator`).

The Python code is shallowly embedded as pure Lean functions:

* a photo record (a Python dict produced by the scorer) becomes the
  structure `PhotoRecord`; mutation of a dict in place becomes a
  functional record update;
* `group_similar_photos` (lines 297-385) becomes `group_similar_photos`
  below, with the two nested `for` loops written as the structural
  recursions `innerScan` (the candidate scan of one seed) and
  `outerLoop` (the seed loop).  Both are instrumented with the list
  `calls` of pairs of paths on which the similarity oracle
  `are_photos_similar` is actually invoked; the Python code does not
  record this list, but its length is exactly the number of oracle
  invocations the Python code performs, and `group_similar_photos`
  ignores the instrumentation;
* the similarity oracle is abstracted as a function
  `sim : String → String → Bool` from pairs of paths to the verdict of
  `are_photos_similar`, which the Python code calls at exactly the
  places `innerScan` records;
* `evaluate_folder` (lines 403-448) becomes `evaluate_folder_records`,
  starting from the list of scored records (the non-`None` results of
  `evaluate_photo`, in folder order); file discovery and JSON output are
  outside the data path of the claims;
* Python's stable in-place `list.sort(key=score, reverse=True)`
  becomes the stable insertion sort `sortByScoreDesc`; stability and
  sortedness are proved below, which characterises the result uniquely;
* the HTTP layer is abstracted by `HttpOutcome`: a request either
  raises (`error`, covering connection errors and timeouts) or returns
  a status code and the extracted response text.  `evaluate_with_ollama`
  (lines 123-194) and the verdict part of `are_photos_similar`
  (lines 196-295) are translated faithfully on top of it, with the
  base64 payload of a readable file abstracted as its content string
  (the claims never inspect the encoding itself);
* the file system is abstracted by `FileStatus`: a path is missing,
  existing but unreadable (`open` raises, so `encode_image` returns
  `None`), or readable with some content.
-/

/-- One photo record: the dict built by `evaluate_photo` from the scorer's
answer (`score`, plus `file` and `path`), possibly extended by the grouper
with the keys `similar_shots` and `alternatives` (absent = `none`).
Descriptive string fields (reasoning, caption, ...) are irrelevant to every
claim about grouping and are not carried. -/
structure PhotoRecord where
  path : String
  file : String
  score : Nat
  similar_shots : Option Nat := none
  alternatives : Option (List String) := none
deriving DecidableEq

/-- Line 305: `[r for r in results if r.get('score', 0) > 0]`. -/
def valid_results (results : List PhotoRecord) : List PhotoRecord :=
  results.filter (fun r => decide (0 < r.score))

/-- Line 306: `[r for r in results if r.get('score', 0) == 0]`. -/
def failed_results (results : List PhotoRecord) : List PhotoRecord :=
  results.filter (fun r => decide (r.score = 0))

/-- Stable insertion into a descending-by-score list: the inserted record
comes from earlier in the original list than every element of the target,
so on a tie it is placed first; this is the insertion step of the stable
descending sort performed by `list.sort(key=lambda x: x.get('score', 0),
reverse=True)` (lines 365 and 435). -/
def insertDesc (r : PhotoRecord) : List PhotoRecord → List PhotoRecord
  | [] => [r]
  | x :: xs => if x.score ≤ r.score then r :: x :: xs else x :: insertDesc r xs

/-- Stable sort by score descending (Python `list.sort(key=score,
reverse=True)`); sortedness, permutation and stability are proved below,
and those three properties determine the output uniquely, so any stable
sorting algorithm (Python uses Timsort) yields this exact list. -/
def sortByScoreDesc : List PhotoRecord → List PhotoRecord
  | [] => []
  | x :: xs => insertDesc x (sortByScoreDesc xs)

/-- Result of the inner candidate scan for one seed (lines 326-344):
the group built so far, the `processed` set (as a list of paths), the
value of `comparison_count`, and the instrumentation: the list of
`(seed path, candidate path)` pairs on which `are_photos_similar` was
invoked, in order. -/
structure ScanResult where
  group : List PhotoRecord
  processed : List String
  count : Nat
  calls : List (String × String)
deriving DecidableEq

/-- Result of the outer seed loop (lines 317-350). -/
structure OuterResult where
  groups : List (List PhotoRecord)
  processed : List String
  count : Nat
  calls : List (String × String)
deriving DecidableEq

/-- Lines 326-344, the scan of the candidates after one seed:
skip candidates already processed (line 327, no counter change);
otherwise increment `comparison_count` (line 331) and stop the scan if it
now exceeds `max_comparisons` (line 332) or if the group already has 10
members (line 337); otherwise query the oracle (line 341, recorded in
`calls`) and on a positive verdict append the candidate to the group and
mark its path processed (lines 342-343). -/
def innerScan (sim : String → String → Bool) (maxC : Nat) (seed : PhotoRecord) :
    List PhotoRecord → List PhotoRecord → List String → Nat → ScanResult
  | [], group, proc, cnt => ⟨group, proc, cnt, []⟩
  | r2 :: rest, group, proc, cnt =>
    if r2.path ∈ proc then
      innerScan sim maxC seed rest group proc cnt
    else if maxC < cnt + 1 then
      ⟨group, proc, cnt + 1, []⟩
    else if 10 ≤ group.length then
      ⟨group, proc, cnt + 1, []⟩
    else if sim seed.path r2.path then
      let res := innerScan sim maxC seed rest (group ++ [r2]) (r2.path :: proc) (cnt + 1)
      ⟨res.group, res.processed, res.count, (seed.path, r2.path) :: res.calls⟩
    else
      let res := innerScan sim maxC seed rest group proc (cnt + 1)
      ⟨res.group, res.processed, res.count, (seed.path, r2.path) :: res.calls⟩

/-- Lines 317-350, the seed loop over `valid_results`: a record already
processed is skipped (lines 318-319); otherwise it seeds a new group
containing itself (lines 322-323), its candidate suffix is scanned, and
the finished group is appended to `groups` (line 346). -/
def outerLoop (sim : String → String → Bool) (maxC : Nat) :
    List PhotoRecord → List (List PhotoRecord) → List String → Nat → OuterResult
  | [], gs, proc, cnt => ⟨gs, proc, cnt, []⟩
  | r1 :: rest, gs, proc, cnt =>
    if r1.path ∈ proc then
      outerLoop sim maxC rest gs proc cnt
    else
      let res := innerScan sim maxC r1 rest [r1] (r1.path :: proc) cnt
      let res2 := outerLoop sim maxC rest (gs ++ [res.group]) res.processed res.count
      ⟨res2.groups, res2.processed, res2.count, res.calls ++ res2.calls⟩

/-- Lines 312-355: run the seed loop with `max_comparisons =
len(valid_results) * 5` (line 315) and append every valid record whose
path was never processed as its own singleton group (lines 352-355). -/
def finalGroups (sim : String → String → Bool) (valid : List PhotoRecord) :
    List (List PhotoRecord) :=
  let res := outerLoop sim (valid.length * 5) valid [] [] 0
  res.groups ++ (valid.filter (fun r => decide (r.path ∉ res.processed))).map (fun r => [r])

/-- Placeholder record for the unreachable empty-group case (Python
`group[0]` would raise on an empty list; the grouper never builds one). -/
def emptyRecord : PhotoRecord := { path := "", file := "", score := 0 }

/-- Lines 361-374, one step of the reducer: a group of more than one
member is sorted by score descending (stable, line 365), the head becomes
the representative and receives `similar_shots = len(group)` and
`alternatives = [photo['file'] for photo in group[1:]]` (lines 367-368);
a singleton group's sole member receives `similar_shots = 1` (line 372). -/
def reduceGroup (g : List PhotoRecord) : PhotoRecord :=
  if 1 < g.length then
    match sortByScoreDesc g with
    | best :: restS =>
      { best with similar_shots := some g.length,
                  alternatives := some (restS.map (fun r => r.file)) }
    | [] => emptyRecord
  else
    match g with
    | best :: _ => { best with similar_shots := some 1 }
    | [] => emptyRecord

/-- Lines 297-385, `group_similar_photos`: identity when duplicate
detection is off or fewer than 2 records arrive (line 299) or fewer than
2 records are valid (line 308); otherwise the groups are formed and
reduced and the failed records are appended at the end (line 377). -/
def group_similar_photos (sim : String → String → Bool) (detect : Bool)
    (results : List PhotoRecord) : List PhotoRecord :=
  if detect = false ∨ results.length < 2 then results
  else if (valid_results results).length < 2 then results
  else
    ((finalGroups sim (valid_results results)).map reduceGroup) ++ failed_results results

/-- Lines 422-441 of `evaluate_folder`, starting from `scored`, the list
of records produced by `evaluate_photo` for the folder's images in order
(with the `None` results of missing files already absent): line 426 keeps
only records with score > 0, line 435 sorts by score descending, and with
duplicate detection on, lines 438-441 group and re-sort. -/
def evaluate_folder_records (sim : String → String → Bool) (detect : Bool)
    (scored : List PhotoRecord) : List PhotoRecord :=
  let results := scored.filter (fun r => decide (0 < r.score))
  let sorted := sortByScoreDesc results
  if detect = true then sortByScoreDesc (group_similar_photos sim detect sorted)
  else sorted

/-- Display names accounted for by one output record: its own `file`
plus the files listed in its `alternatives` (the group members folded
into it). -/
def accounted (r : PhotoRecord) : List String :=
  r.file :: (r.alternatives.getD [])

/-- Outcome of one HTTP request: an exception (connection error,
timeout, ...) or a response with a status code and the response text
(for Ollama the `response` field, for OpenAI the message content). -/
inductive HttpOutcome where
  | success (status : Nat) (content : String)
  | error
deriving DecidableEq

/-- Status of an input path on disk: absent, or present but unreadable
(`open` raises), or readable with the given content. -/
inductive FileStatus where
  | missing
  | unreadable
  | readable (content : String)
deriving DecidableEq

/-- Lines 22-35, `encode_image`: any exception while opening or reading
(missing or unreadable file) yields `None`; otherwise the base64 payload,
abstracted here as the file content itself (no claim inspects it). -/
def encode_image (st : FileStatus) : Option String :=
  match st with
  | .readable c => some c
  | .missing => none
  | .unreadable => none

/-- Python `startswith` on character lists. -/
def startsWithL : List Char → List Char → Bool
  | [], _ => true
  | _ :: _, [] => false
  | a :: as, b :: bs => (a == b) && startsWithL as bs

/-- Python's substring test `needle in hay` on character lists. -/
def containsSub (needle : List Char) : List Char → Bool
  | [] => startsWithL needle []
  | b :: bs => startsWithL needle (b :: bs) || containsSub needle bs

/-- Python `str.lower` on character lists. -/
def lowerData (cs : List Char) : List Char := cs.map Char.toLower

/-- Python `str.upper` on character lists. -/
def upperData (cs : List Char) : List Char := cs.map Char.toUpper

/-- Python `str.strip` on character lists: whitespace removed from both
ends. -/
def trimData (cs : List Char) : List Char :=
  ((cs.dropWhile Char.isWhitespace).reverse.dropWhile Char.isWhitespace).reverse

/-- Maximal leading digit run of a character list. -/
def digitsPref : List Char → List Char
  | [] => []
  | c :: cs => if c.isDigit then c :: digitsPref cs else []

/-- Leftmost maximal digit run, if any: what `re.search(r'(\d+)(?:/100)?',
text)` captures as group 1 (line 178). -/
def firstNatRun : List Char → Option (List Char)
  | [] => none
  | c :: cs => if c.isDigit then some (c :: digitsPref cs) else firstNatRun cs

/-- Decimal value of a digit string (Python `int`). -/
def natOfDigits (ds : List Char) : Nat :=
  ds.foldl (fun n c => n * 10 + (c.toNat - '0'.toNat)) 0

/-- Lines 174-180: the score extracted from a 200-response's text:
default 50; if `'score'` occurs in the lowercased text and the text has a
digit run, the first such run clamped by `min(100, max(1, n))`. -/
def extract_score (text : String) : Nat :=
  if containsSub "score".data (lowerData text.data) then
    match firstNatRun text.data with
    | some ds => min 100 (max 1 (natOfDigits ds))
    | none => 50
  else 50

/-- Scorer answer used by the pipeline: only the score matters to the
claims; `reasoning` carries the diagnostic strings of lines 183-194. -/
structure EvalAnswer where
  score : Nat
  reasoning : String
deriving DecidableEq

/-- Lines 123-194, `evaluate_with_ollama`: the request is issued with the
(possibly `None`) encoded image; a 200 response yields the extracted
clamped score, any other status yields score 0 (line 189), and an
exception (connection error or otherwise) yields score 0
(lines 191-194). -/
def evaluate_with_ollama (_img : Option String) (resp : HttpOutcome) : EvalAnswer :=
  match resp with
  | .success status text =>
    if status = 200 then { score := extract_score text, reasoning := text }
    else { score := 0, reasoning := "Ollama error" }
  | .error => { score := 0, reasoning := "Error" }

/-- Lines 387-401, `evaluate_photo`: `None` when the path does not exist
(line 389-390); otherwise the configured backend scores the encoded image
(even when encoding failed and the payload is `None`) and `file` and
`path` are attached.  `scorer` abstracts the chosen backend branch
(lines 394-397); `evaluate_with_ollama` applied to a fixed `HttpOutcome`
is one instance of it. -/
def evaluate_photo (scorer : Option String → EvalAnswer)
    (path file : String) (st : FileStatus) : Option PhotoRecord :=
  if st = .missing then none
  else some { path := path, file := file, score := (scorer (encode_image st)).score }

/-- Verdict part of `are_photos_similar` once both images are encoded:
OpenAI branch (lines 230-268): 200-response whose stripped uppercased
content equals `"SIMILAR"`, anything else (other statuses, exceptions)
is `False`; Ollama branch (lines 269-293): 200-response whose stripped
uppercased text contains `"SIMILAR"` and not `"DIFFERENT"`, anything
else `False`. -/
def oracleVerdict (use_openai : Bool) (resp : HttpOutcome) : Bool :=
  if use_openai = true then
    match resp with
    | .success status content =>
      decide (status = 200) && decide (upperData (trimData content.data) = "SIMILAR".data)
    | .error => false
  else
    match resp with
    | .success status content =>
      decide (status = 200) &&
        (containsSub "SIMILAR".data (upperData (trimData content.data)) &&
          !containsSub "DIFFERENT".data (upperData (trimData content.data)))
    | .error => false

/-- Lines 196-295, `are_photos_similar` for one pair: `False` when
duplicate detection is off (line 198), when either path does not exist
(line 203), or when either encoding fails (line 209); otherwise the
backend verdict on the request's outcome. -/
def are_photos_similar (detect use_openai : Bool) (st1 st2 : FileStatus)
    (resp : HttpOutcome) : Bool :=
  if detect = false then false
  else if decide (st1 = .missing) || decide (st2 = .missing) then false
  else
    match encode_image st1, encode_image st2 with
    | some _, some _ => oracleVerdict use_openai resp
    | _, _ => false

/-! Properties of the stable descending sort. -/

theorem insertDesc_perm (r : PhotoRecord) (l : List PhotoRecord) :
    List.Perm (insertDesc r l) (r :: l) := by
  induction l with
  | nil => exact List.Perm.refl _
  | cons x xs ih =>
    simp only [insertDesc]
    split
    · exact List.Perm.refl _
    · exact (ih.cons x).trans (List.Perm.swap r x xs)

theorem sortByScoreDesc_perm (l : List PhotoRecord) :
    List.Perm (sortByScoreDesc l) l := by
  induction l with
  | nil => exact List.Perm.refl _
  | cons x xs ih => exact (insertDesc_perm x _).trans (ih.cons x)

theorem insertDesc_pairwise (r : PhotoRecord) (l : List PhotoRecord)
    (h : List.Pairwise (fun a b => b.score ≤ a.score) l) :
    List.Pairwise (fun a b => b.score ≤ a.score) (insertDesc r l) := by
  induction l with
  | nil => simp [insertDesc]
  | cons x xs ih =>
    rcases List.pairwise_cons.mp h with ⟨hx, hxs⟩
    simp only [insertDesc]
    split
    · refine List.pairwise_cons.mpr ⟨?_, h⟩
      intro b hb
      rcases List.mem_cons.mp hb with hb | hb
      · subst hb; assumption
      · exact le_trans (hx b hb) (by assumption)
    · refine List.pairwise_cons.mpr ⟨?_, ih hxs⟩
      intro b hb
      rcases List.mem_cons.mp ((insertDesc_perm r xs).mem_iff.mp hb) with hb | hb
      · subst hb; omega
      · exact hx b hb

theorem sortByScoreDesc_pairwise (l : List PhotoRecord) :
    List.Pairwise (fun a b => b.score ≤ a.score) (sortByScoreDesc l) := by
  induction l with
  | nil => simp [sortByScoreDesc]
  | cons x xs ih => exact insertDesc_pairwise x _ ih

theorem insertDesc_filter_eq (r : PhotoRecord) (l : List PhotoRecord) (s : Nat)
    (hr : r.score = s) :
    (insertDesc r l).filter (fun a => decide (a.score = s)) =
      r :: l.filter (fun a => decide (a.score = s)) := by
  induction l with
  | nil => simp [insertDesc, hr]
  | cons x xs ih =>
    simp only [insertDesc]
    split
    · simp [List.filter_cons, hr]
    · have hx : ¬ (x.score = s) := by omega
      simp [List.filter_cons, hx, ih]

theorem insertDesc_filter_ne (r : PhotoRecord) (l : List PhotoRecord) (s : Nat)
    (hr : ¬ r.score = s) :
    (insertDesc r l).filter (fun a => decide (a.score = s)) =
      l.filter (fun a => decide (a.score = s)) := by
  induction l with
  | nil => simp [insertDesc, hr]
  | cons x xs ih =>
    simp only [insertDesc]
    split
    · simp [List.filter_cons, hr]
    · simp [List.filter_cons, ih]

theorem sortByScoreDesc_stable (l : List PhotoRecord) (s : Nat) :
    (sortByScoreDesc l).filter (fun a => decide (a.score = s)) =
      l.filter (fun a => decide (a.score = s)) := by
  induction l with
  | nil => rfl
  | cons x xs ih =>
    simp only [sortByScoreDesc]
    by_cases hx : x.score = s
    · rw [insertDesc_filter_eq x _ s hx, ih, List.filter_cons, if_pos (by simpa)]
    · rw [insertDesc_filter_ne x _ s hx, ih, List.filter_cons, if_neg (by simpa)]

theorem sortByScoreDesc_head_max (l : List PhotoRecord) (best : PhotoRecord)
    (restS : List PhotoRecord) (h : sortByScoreDesc l = best :: restS) :
    ∀ b ∈ l, b.score ≤ best.score := by
  intro b hb
  have hmem : b ∈ best :: restS := by
    rw [← h]
    exact (sortByScoreDesc_perm l).mem_iff.mpr hb
  rcases List.mem_cons.mp hmem with hb' | hb'
  · subst hb'; exact le_refl _
  · have hp := sortByScoreDesc_pairwise l
    rw [h] at hp
    exact (List.pairwise_cons.mp hp).1 b hb'

/-! Claims C7, C9 and C10. -/

/-- Helper: the grouping pass is the identity when any of its three
guards fires. -/
theorem group_similar_photos_id (sim : String → String → Bool) (detect : Bool)
    (results : List PhotoRecord)
    (h : detect = false ∨ results.length < 2 ∨ (valid_results results).length < 2) :
    group_similar_photos sim detect results = results := by
  unfold group_similar_photos
  rcases h with h | h | h
  · rw [if_pos (Or.inl h)]
  · rw [if_pos (Or.inr h)]
  · by_cases h2 : detect = false ∨ results.length < 2
    · rw [if_pos h2]
    · rw [if_neg h2, if_pos h]

/-- C7: if duplicate detection is disabled, or the input has fewer than 2
records, or fewer than 2 of the input records are valid (score > 0), then
`group_similar_photos` returns its input unchanged: no grouping fields are
added and no record is reordered or removed. -/
theorem c7_group_noop (sim : String → String → Bool) (detect : Bool)
    (results : List PhotoRecord)
    (h : detect = false ∨ results.length < 2 ∨ (valid_results results).length < 2) :
    group_similar_photos sim detect results = results :=
  group_similar_photos_id sim detect results h

theorem c7_group_noop_witness :
    group_similar_photos (fun _ _ => true) true
      [{ path := "a", file := "a.jpg", score := 9 },
       { path := "b", file := "b.jpg", score := 0 }] =
      [{ path := "a", file := "a.jpg", score := 9 },
       { path := "b", file := "b.jpg", score := 0 }] :=
  c7_group_noop _ true _ (Or.inr (Or.inr (by decide)))

/-- C9: for every pair, if the similarity request errors (connection
failure, timeout, any exception), `are_photos_similar` returns `false` —
the pair is treated as not similar — and the grouping run continues
unchanged: running `group_similar_photos` with an oracle whose request
errors on some pairs gives exactly the same output as running it with
those requests answered by an explicit not-similar verdict, so a single
comparison failure never aborts the whole grouping run. -/
theorem c9_oracle_error_conservative :
    (∀ (detect use_openai : Bool) (st1 st2 : FileStatus),
        are_photos_similar detect use_openai st1 st2 HttpOutcome.error = false) ∧
    (∀ (use_openai detect : Bool) (F : String → String → HttpOutcome)
        (results : List PhotoRecord),
        group_similar_photos (fun p q => oracleVerdict use_openai (F p q)) detect results =
          group_similar_photos
            (fun p q =>
              oracleVerdict use_openai
                (match F p q with
                 | HttpOutcome.error => HttpOutcome.success 200 "DIFFERENT"
                 | HttpOutcome.success s c => HttpOutcome.success s c))
            detect results) := by
  constructor
  · intro detect uo st1 st2
    cases detect <;> cases uo <;> cases st1 <;> cases st2 <;>
      simp [are_photos_similar, oracleVerdict, encode_image]
  · intro uo detect F results
    have hfun : (fun p q => oracleVerdict uo (F p q)) =
        (fun p q =>
          oracleVerdict uo
            (match F p q with
             | HttpOutcome.error => HttpOutcome.success 200 "DIFFERENT"
             | HttpOutcome.success s c => HttpOutcome.success s c)) := by
      funext p q
      cases hF : F p q with
      | success s c => rfl
      | error => cases uo <;> decide
    rw [hfun]

/-- Reusable bound: the score extracted from any 200-response text lies
in 1..100 (default 50, or the first number clamped by
`min(100, max(1, n))`). -/
theorem extract_score_range (text : String) :
    1 ≤ extract_score text ∧ extract_score text ≤ 100 := by
  unfold extract_score
  split
  · split
    · constructor <;> omega
    · constructor <;> omega
  · constructor <;> omega

/-- C10: every successful Ollama evaluation (HTTP 200) returns a score
in 1..100 (extracted number clamped by `min(100, max(1, n))`, default
50), so a score of 0 can only arise from an error branch: score 0 implies
the response was not a 200 success. -/
theorem c10_ollama_clamped :
    (∀ (img : Option String) (text : String),
        1 ≤ (evaluate_with_ollama img (HttpOutcome.success 200 text)).score ∧
        (evaluate_with_ollama img (HttpOutcome.success 200 text)).score ≤ 100) ∧
    (∀ (img : Option String) (resp : HttpOutcome),
        (evaluate_with_ollama img resp).score = 0 →
        ∀ text, resp ≠ HttpOutcome.success 200 text) := by
  constructor
  · intro img text
    simpa [evaluate_with_ollama] using extract_score_range text
  · intro img resp h text heq
    subst heq
    have hr := extract_score_range text
    simp [evaluate_with_ollama] at h
    omega

theorem c10_ollama_clamped_witness :
    (1 ≤ (evaluate_with_ollama none (HttpOutcome.success 200 "Score: 250/100!")).score ∧
      (evaluate_with_ollama none (HttpOutcome.success 200 "Score: 250/100!")).score ≤ 100) ∧
    HttpOutcome.error ≠ HttpOutcome.success 200 "ok" :=
  ⟨c10_ollama_clamped.1 none "Score: 250/100!",
   c10_ollama_clamped.2 none HttpOutcome.error (by decide) "ok"⟩

/-! Invariants of the inner candidate scan. -/

theorem innerScan_skip (sim : String → String → Bool) (maxC : Nat) (seed r2 : PhotoRecord)
    (rest group : List PhotoRecord) (proc : List String) (cnt : Nat)
    (h1 : r2.path ∈ proc) :
    innerScan sim maxC seed (r2 :: rest) group proc cnt =
      innerScan sim maxC seed rest group proc cnt := by
  simp only [innerScan]; rw [if_pos h1]

theorem innerScan_budget (sim : String → String → Bool) (maxC : Nat) (seed r2 : PhotoRecord)
    (rest group : List PhotoRecord) (proc : List String) (cnt : Nat)
    (h1 : ¬ r2.path ∈ proc) (h2 : maxC < cnt + 1) :
    innerScan sim maxC seed (r2 :: rest) group proc cnt = ⟨group, proc, cnt + 1, []⟩ := by
  simp only [innerScan]; rw [if_neg h1, if_pos h2]

theorem innerScan_full (sim : String → String → Bool) (maxC : Nat) (seed r2 : PhotoRecord)
    (rest group : List PhotoRecord) (proc : List String) (cnt : Nat)
    (h1 : ¬ r2.path ∈ proc) (h2 : ¬ maxC < cnt + 1) (h3 : 10 ≤ group.length) :
    innerScan sim maxC seed (r2 :: rest) group proc cnt = ⟨group, proc, cnt + 1, []⟩ := by
  simp only [innerScan]; rw [if_neg h1, if_neg h2, if_pos h3]

theorem innerScan_hit (sim : String → String → Bool) (maxC : Nat) (seed r2 : PhotoRecord)
    (rest group : List PhotoRecord) (proc : List String) (cnt : Nat)
    (h1 : ¬ r2.path ∈ proc) (h2 : ¬ maxC < cnt + 1) (h3 : ¬ 10 ≤ group.length)
    (h4 : sim seed.path r2.path = true) :
    innerScan sim maxC seed (r2 :: rest) group proc cnt =
      ⟨(innerScan sim maxC seed rest (group ++ [r2]) (r2.path :: proc) (cnt + 1)).group,
       (innerScan sim maxC seed rest (group ++ [r2]) (r2.path :: proc) (cnt + 1)).processed,
       (innerScan sim maxC seed rest (group ++ [r2]) (r2.path :: proc) (cnt + 1)).count,
       (seed.path, r2.path) ::
         (innerScan sim maxC seed rest (group ++ [r2]) (r2.path :: proc) (cnt + 1)).calls⟩ := by
  simp only [innerScan]; rw [if_neg h1, if_neg h2, if_neg h3, if_pos h4]

theorem innerScan_miss (sim : String → String → Bool) (maxC : Nat) (seed r2 : PhotoRecord)
    (rest group : List PhotoRecord) (proc : List String) (cnt : Nat)
    (h1 : ¬ r2.path ∈ proc) (h2 : ¬ maxC < cnt + 1) (h3 : ¬ 10 ≤ group.length)
    (h4 : ¬ sim seed.path r2.path = true) :
    innerScan sim maxC seed (r2 :: rest) group proc cnt =
      ⟨(innerScan sim maxC seed rest group proc (cnt + 1)).group,
       (innerScan sim maxC seed rest group proc (cnt + 1)).processed,
       (innerScan sim maxC seed rest group proc (cnt + 1)).count,
       (seed.path, r2.path) :: (innerScan sim maxC seed rest group proc (cnt + 1)).calls⟩ := by
  simp only [innerScan]; rw [if_neg h1, if_neg h2, if_neg h3, if_neg h4]

/-- Structural invariant of the candidate scan: the group only grows, by
candidates of the scanned suffix on which the oracle answered similar;
the processed set gains exactly the paths of those added candidates and
stays duplicate-free. -/
theorem innerScan_spec (sim : String → String → Bool) (maxC : Nat) (seed : PhotoRecord)
    (rest : List PhotoRecord) :
    ∀ (group : List PhotoRecord) (proc : List String) (cnt : Nat),
      ∃ extra : List PhotoRecord,
        (innerScan sim maxC seed rest group proc cnt).group = group ++ extra ∧
        (∀ r ∈ extra, r ∈ rest ∧ sim seed.path r.path = true) ∧
        List.Perm (innerScan sim maxC seed rest group proc cnt).processed
          (extra.map PhotoRecord.path ++ proc) ∧
        (proc.Nodup → (innerScan sim maxC seed rest group proc cnt).processed.Nodup) := by
  induction rest with
  | nil =>
    intro group proc cnt
    exact ⟨[], by simp [innerScan], by simp, by simp [innerScan], fun h => by simpa [innerScan] using h⟩
  | cons r2 rest ih =>
    intro group proc cnt
    by_cases h1 : r2.path ∈ proc
    · rw [innerScan_skip sim maxC seed r2 rest group proc cnt h1]
      rcases ih group proc cnt with ⟨extra, hg, hmem, hperm, hnd⟩
      exact ⟨extra, hg,
        fun r hr => ⟨List.mem_cons_of_mem _ (hmem r hr).1, (hmem r hr).2⟩, hperm, hnd⟩
    · by_cases h2 : maxC < cnt + 1
      · rw [innerScan_budget sim maxC seed r2 rest group proc cnt h1 h2]
        exact ⟨[], by simp, by simp, by simp, fun h => h⟩
      · by_cases h3 : 10 ≤ group.length
        · rw [innerScan_full sim maxC seed r2 rest group proc cnt h1 h2 h3]
          exact ⟨[], by simp, by simp, by simp, fun h => h⟩
        · by_cases h4 : sim seed.path r2.path = true
          · rw [innerScan_hit sim maxC seed r2 rest group proc cnt h1 h2 h3 h4]
            rcases ih (group ++ [r2]) (r2.path :: proc) (cnt + 1) with ⟨extra, hg, hmem, hperm, hnd⟩
            refine ⟨r2 :: extra, ?_, ?_, ?_, ?_⟩
            · show (innerScan sim maxC seed rest (group ++ [r2]) (r2.path :: proc) (cnt + 1)).group =
                group ++ r2 :: extra
              rw [hg, List.append_assoc]; rfl
            · intro r hr
              rcases List.mem_cons.mp hr with hr | hr
              · subst hr; exact ⟨List.mem_cons_self _ _, h4⟩
              · exact ⟨List.mem_cons_of_mem _ (hmem r hr).1, (hmem r hr).2⟩
            · show List.Perm
                (innerScan sim maxC seed rest (group ++ [r2]) (r2.path :: proc) (cnt + 1)).processed
                ((r2 :: extra).map PhotoRecord.path ++ proc)
              exact hperm.trans List.perm_middle
            · intro h
              exact hnd (List.nodup_cons.mpr ⟨h1, h⟩)
          · rw [innerScan_miss sim maxC seed r2 rest group proc cnt h1 h2 h3 h4]
            rcases ih group proc (cnt + 1) with ⟨extra, hg, hmem, hperm, hnd⟩
            exact ⟨extra, hg,
              fun r hr => ⟨List.mem_cons_of_mem _ (hmem r hr).1, (hmem r hr).2⟩, hperm, hnd⟩

/-- Counting invariant of the candidate scan: the counter is monotone,
each oracle call bumps it, and no more than `maxC - cnt` calls are made
from counter value `cnt` (so none at all once the budget is exceeded). -/
theorem innerScan_count (sim : String → String → Bool) (maxC : Nat) (seed : PhotoRecord)
    (rest : List PhotoRecord) :
    ∀ (group : List PhotoRecord) (proc : List String) (cnt : Nat),
      cnt ≤ (innerScan sim maxC seed rest group proc cnt).count ∧
      (innerScan sim maxC seed rest group proc cnt).calls.length + cnt ≤
        (innerScan sim maxC seed rest group proc cnt).count ∧
      (innerScan sim maxC seed rest group proc cnt).calls.length ≤ maxC - cnt := by
  induction rest with
  | nil => intro group proc cnt; refine ⟨?_, ?_, ?_⟩ <;> simp [innerScan]
  | cons r2 rest ih =>
    intro group proc cnt
    by_cases h1 : r2.path ∈ proc
    · rw [innerScan_skip sim maxC seed r2 rest group proc cnt h1]
      exact ih group proc cnt
    · by_cases h2 : maxC < cnt + 1
      · rw [innerScan_budget sim maxC seed r2 rest group proc cnt h1 h2]
        refine ⟨?_, ?_, ?_⟩ <;> simp <;> omega
      · by_cases h3 : 10 ≤ group.length
        · rw [innerScan_full sim maxC seed r2 rest group proc cnt h1 h2 h3]
          refine ⟨?_, ?_, ?_⟩ <;> simp <;> omega
        · by_cases h4 : sim seed.path r2.path = true
          · rw [innerScan_hit sim maxC seed r2 rest group proc cnt h1 h2 h3 h4]
            rcases ih (group ++ [r2]) (r2.path :: proc) (cnt + 1) with ⟨ha, hb, hc⟩
            refine ⟨?_, ?_, ?_⟩ <;> simp only [List.length_cons] <;> omega
          · rw [innerScan_miss sim maxC seed r2 rest group proc cnt h1 h2 h3 h4]
            rcases ih group proc (cnt + 1) with ⟨ha, hb, hc⟩
            refine ⟨?_, ?_, ?_⟩ <;> simp only [List.length_cons] <;> omega

/-- Every oracle call of the candidate scan pairs the seed's path with
the path of a record of the scanned suffix. -/
theorem innerScan_calls_mem (sim : String → String → Bool) (maxC : Nat) (seed : PhotoRecord)
    (rest : List PhotoRecord) :
    ∀ (group : List PhotoRecord) (proc : List String) (cnt : Nat),
      ∀ pq ∈ (innerScan sim maxC seed rest group proc cnt).calls,
        pq.1 = seed.path ∧ ∃ r, r ∈ rest ∧ pq.2 = r.path := by
  induction rest with
  | nil => intro group proc cnt pq hpq; simp [innerScan] at hpq
  | cons r2 rest ih =>
    intro group proc cnt pq hpq
    by_cases h1 : r2.path ∈ proc
    · rw [innerScan_skip sim maxC seed r2 rest group proc cnt h1] at hpq
      rcases ih group proc cnt pq hpq with ⟨hl, r, hr, hr2⟩
      exact ⟨hl, r, List.mem_cons_of_mem _ hr, hr2⟩
    · by_cases h2 : maxC < cnt + 1
      · rw [innerScan_budget sim maxC seed r2 rest group proc cnt h1 h2] at hpq
        simp at hpq
      · by_cases h3 : 10 ≤ group.length
        · rw [innerScan_full sim maxC seed r2 rest group proc cnt h1 h2 h3] at hpq
          simp at hpq
        · by_cases h4 : sim seed.path r2.path = true
          · rw [innerScan_hit sim maxC seed r2 rest group proc cnt h1 h2 h3 h4] at hpq
            rcases List.mem_cons.mp hpq with hpq | hpq
            · subst hpq; exact ⟨rfl, r2, List.mem_cons_self _ _, rfl⟩
            · rcases ih (group ++ [r2]) (r2.path :: proc) (cnt + 1) pq hpq with ⟨hl, r, hr, hr2⟩
              exact ⟨hl, r, List.mem_cons_of_mem _ hr, hr2⟩
          · rw [innerScan_miss sim maxC seed r2 rest group proc cnt h1 h2 h3 h4] at hpq
            rcases List.mem_cons.mp hpq with hpq | hpq
            · subst hpq; exact ⟨rfl, r2, List.mem_cons_self _ _, rfl⟩
            · rcases ih group proc (cnt + 1) pq hpq with ⟨hl, r, hr, hr2⟩
              exact ⟨hl, r, List.mem_cons_of_mem _ hr, hr2⟩

/-- Group-size invariant: the scan never grows a group past 10 members. -/
theorem innerScan_group_le (sim : String → String → Bool) (maxC : Nat) (seed : PhotoRecord)
    (rest : List PhotoRecord) :
    ∀ (group : List PhotoRecord) (proc : List String) (cnt : Nat),
      group.length ≤ 10 → (innerScan sim maxC seed rest group proc cnt).group.length ≤ 10 := by
  induction rest with
  | nil => intro group proc cnt h; simpa [innerScan] using h
  | cons r2 rest ih =>
    intro group proc cnt h
    by_cases h1 : r2.path ∈ proc
    · rw [innerScan_skip sim maxC seed r2 rest group proc cnt h1]; exact ih group proc cnt h
    · by_cases h2 : maxC < cnt + 1
      · rw [innerScan_budget sim maxC seed r2 rest group proc cnt h1 h2]; exact h
      · by_cases h3 : 10 ≤ group.length
        · rw [innerScan_full sim maxC seed r2 rest group proc cnt h1 h2 h3]; exact h
        · by_cases h4 : sim seed.path r2.path = true
          · rw [innerScan_hit sim maxC seed r2 rest group proc cnt h1 h2 h3 h4]
            exact ih (group ++ [r2]) (r2.path :: proc) (cnt + 1) (by simp; omega)
          · rw [innerScan_miss sim maxC seed r2 rest group proc cnt h1 h2 h3 h4]
            exact ih group proc (cnt + 1) h

/-- Once a group has 10 members, the scan adds no further candidate to
it. -/
theorem innerScan_group_stops (sim : String → String → Bool) (maxC : Nat) (seed : PhotoRecord)
    (rest : List PhotoRecord) :
    ∀ (group : List PhotoRecord) (proc : List String) (cnt : Nat),
      10 ≤ group.length → (innerScan sim maxC seed rest group proc cnt).group = group := by
  induction rest with
  | nil => intro group proc cnt _; simp [innerScan]
  | cons r2 rest ih =>
    intro group proc cnt h
    by_cases h1 : r2.path ∈ proc
    · rw [innerScan_skip sim maxC seed r2 rest group proc cnt h1]; exact ih group proc cnt h
    · by_cases h2 : maxC < cnt + 1
      · rw [innerScan_budget sim maxC seed r2 rest group proc cnt h1 h2]
      · rw [innerScan_full sim maxC seed r2 rest group proc cnt h1 h2 h]

/-! Invariants of the outer seed loop. -/

theorem outerLoop_skip (sim : String → String → Bool) (maxC : Nat) (r1 : PhotoRecord)
    (rest : List PhotoRecord) (gs : List (List PhotoRecord)) (proc : List String) (cnt : Nat)
    (h1 : r1.path ∈ proc) :
    outerLoop sim maxC (r1 :: rest) gs proc cnt = outerLoop sim maxC rest gs proc cnt := by
  simp only [outerLoop]; rw [if_pos h1]

theorem outerLoop_seed (sim : String → String → Bool) (maxC : Nat) (r1 : PhotoRecord)
    (rest : List PhotoRecord) (gs : List (List PhotoRecord)) (proc : List String) (cnt : Nat)
    (h1 : ¬ r1.path ∈ proc) :
    outerLoop sim maxC (r1 :: rest) gs proc cnt =
      ⟨(outerLoop sim maxC rest
          (gs ++ [(innerScan sim maxC r1 rest [r1] (r1.path :: proc) cnt).group])
          (innerScan sim maxC r1 rest [r1] (r1.path :: proc) cnt).processed
          (innerScan sim maxC r1 rest [r1] (r1.path :: proc) cnt).count).groups,
       (outerLoop sim maxC rest
          (gs ++ [(innerScan sim maxC r1 rest [r1] (r1.path :: proc) cnt).group])
          (innerScan sim maxC r1 rest [r1] (r1.path :: proc) cnt).processed
          (innerScan sim maxC r1 rest [r1] (r1.path :: proc) cnt).count).processed,
       (outerLoop sim maxC rest
          (gs ++ [(innerScan sim maxC r1 rest [r1] (r1.path :: proc) cnt).group])
          (innerScan sim maxC r1 rest [r1] (r1.path :: proc) cnt).processed
          (innerScan sim maxC r1 rest [r1] (r1.path :: proc) cnt).count).count,
       (innerScan sim maxC r1 rest [r1] (r1.path :: proc) cnt).calls ++
         (outerLoop sim maxC rest
           (gs ++ [(innerScan sim maxC r1 rest [r1] (r1.path :: proc) cnt).group])
           (innerScan sim maxC r1 rest [r1] (r1.path :: proc) cnt).processed
           (innerScan sim maxC r1 rest [r1] (r1.path :: proc) cnt).count).calls⟩ := by
  simp only [outerLoop]; rw [if_neg h1]

/-- Any-type permutation shuffle used when peeling one seed off the
processed-set bookkeeping. -/
theorem perm_shuffle {α : Type} (A B P : List α) (p : α) :
    List.Perm (A ++ (B ++ (p :: P))) ((p :: (B ++ A)) ++ P) := by
  have h1 : List.Perm (A ++ (B ++ (p :: P))) (A ++ (p :: (B ++ P))) :=
    List.Perm.append_left A List.perm_middle
  have h2 : List.Perm (A ++ (p :: (B ++ P))) (p :: (A ++ (B ++ P))) := List.perm_middle
  have h3 : List.Perm ((A ++ B) ++ P) ((B ++ A) ++ P) :=
    List.Perm.append_right P List.perm_append_comm
  have h4 : List.Perm (p :: (A ++ (B ++ P))) (p :: ((B ++ A) ++ P)) := by
    rw [← List.append_assoc]
    exact h3.cons p
  exact (h1.trans h2).trans h4

/-- Structural invariant of the seed loop: it appends a batch of new
groups, each a seed from the remaining records followed by the candidates
the oracle matched to it, of size at most 10; the processed set gains
exactly the paths of the members of those groups and stays
duplicate-free. -/
theorem outerLoop_spec (sim : String → String → Bool) (maxC : Nat)
    (rem : List PhotoRecord) :
    ∀ (gs : List (List PhotoRecord)) (proc : List String) (cnt : Nat),
      ∃ news : List (List PhotoRecord),
        (outerLoop sim maxC rem gs proc cnt).groups = gs ++ news ∧
        (∀ g ∈ news, ∃ s tl, g = s :: tl ∧ s ∈ rem ∧
            (∀ r ∈ tl, r ∈ rem ∧ sim s.path r.path = true) ∧ g.length ≤ 10) ∧
        List.Perm (outerLoop sim maxC rem gs proc cnt).processed
          (news.flatten.map PhotoRecord.path ++ proc) ∧
        (proc.Nodup → (outerLoop sim maxC rem gs proc cnt).processed.Nodup) := by
  induction rem with
  | nil =>
    intro gs proc cnt
    exact ⟨[], by simp [outerLoop], by simp, by simp [outerLoop], fun h => by simpa [outerLoop] using h⟩
  | cons r1 rest ih =>
    intro gs proc cnt
    by_cases h1 : r1.path ∈ proc
    · rw [outerLoop_skip sim maxC r1 rest gs proc cnt h1]
      rcases ih gs proc cnt with ⟨news, hgs, hmem, hperm, hnd⟩
      refine ⟨news, hgs, ?_, hperm, hnd⟩
      intro g hg
      rcases hmem g hg with ⟨s, tl, hgeq, hs, htl, hlen⟩
      exact ⟨s, tl, hgeq, List.mem_cons_of_mem _ hs,
        fun r hr => ⟨List.mem_cons_of_mem _ (htl r hr).1, (htl r hr).2⟩, hlen⟩
    · rw [outerLoop_seed sim maxC r1 rest gs proc cnt h1]
      rcases innerScan_spec sim maxC r1 rest [r1] (r1.path :: proc) cnt with
        ⟨extra, hg, hmemI, hpermI, hndI⟩
      rcases ih (gs ++ [(innerScan sim maxC r1 rest [r1] (r1.path :: proc) cnt).group])
          (innerScan sim maxC r1 rest [r1] (r1.path :: proc) cnt).processed
          (innerScan sim maxC r1 rest [r1] (r1.path :: proc) cnt).count with
        ⟨news2, hgs2, hmem2, hperm2, hnd2⟩
      refine ⟨(innerScan sim maxC r1 rest [r1] (r1.path :: proc) cnt).group :: news2,
        ?_, ?_, ?_, ?_⟩
      · show (outerLoop sim maxC rest _ _ _).groups = _
        rw [hgs2, List.append_assoc]; rfl
      · intro g hgmem
        rcases List.mem_cons.mp hgmem with hgmem | hgmem
        · refine ⟨r1, extra, by rw [hgmem, hg]; rfl, List.mem_cons_self _ _, ?_, ?_⟩
          · exact fun r hr => ⟨List.mem_cons_of_mem _ (hmemI r hr).1, (hmemI r hr).2⟩
          · rw [hgmem]
            exact innerScan_group_le sim maxC r1 rest [r1] (r1.path :: proc) cnt (by simp)
        · rcases hmem2 g hgmem with ⟨s, tl, hgeq, hs, htl, hlen⟩
          exact ⟨s, tl, hgeq, List.mem_cons_of_mem _ hs,
            fun r hr => ⟨List.mem_cons_of_mem _ (htl r hr).1, (htl r hr).2⟩, hlen⟩
      · show List.Perm (outerLoop sim maxC rest _ _ _).processed _
        refine (hperm2.trans (hpermI.append_left _)).trans ?_
        have key := perm_shuffle (news2.flatten.map PhotoRecord.path)
          (extra.map PhotoRecord.path) proc r1.path
        refine key.trans ?_
        rw [hg]
        simp [List.map_append]
      · intro h
        exact hnd2 (hndI (List.nodup_cons.mpr ⟨h1, h⟩))

/-- Counting invariant of the seed loop: the shared counter is monotone
and at most `maxC - cnt` further oracle calls happen from counter value
`cnt` — in particular none at all once the budget is exceeded, across all
remaining seeds. -/
theorem outerLoop_count (sim : String → String → Bool) (maxC : Nat)
    (rem : List PhotoRecord) :
    ∀ (gs : List (List PhotoRecord)) (proc : List String) (cnt : Nat),
      cnt ≤ (outerLoop sim maxC rem gs proc cnt).count ∧
      (outerLoop sim maxC rem gs proc cnt).calls.length ≤ maxC - cnt := by
  induction rem with
  | nil => intro gs proc cnt; constructor <;> simp [outerLoop]
  | cons r1 rest ih =>
    intro gs proc cnt
    by_cases h1 : r1.path ∈ proc
    · rw [outerLoop_skip sim maxC r1 rest gs proc cnt h1]
      exact ih gs proc cnt
    · rw [outerLoop_seed sim maxC r1 rest gs proc cnt h1]
      rcases innerScan_count sim maxC r1 rest [r1] (r1.path :: proc) cnt with ⟨ha, hb, hc⟩
      rcases ih (gs ++ [(innerScan sim maxC r1 rest [r1] (r1.path :: proc) cnt).group])
          (innerScan sim maxC r1 rest [r1] (r1.path :: proc) cnt).processed
          (innerScan sim maxC r1 rest [r1] (r1.path :: proc) cnt).count with ⟨hd, he⟩
      constructor
      · dsimp only
        omega
      · dsimp only
        rw [List.length_append]
        omega

/-- Every oracle call of the whole run pairs the path of a seed with the
path of a record strictly after that seed in the scan list, and that seed
heads one of the produced groups. -/
theorem outerLoop_calls_mem (sim : String → String → Bool) (maxC : Nat)
    (rem : List PhotoRecord) :
    ∀ (gs : List (List PhotoRecord)) (proc : List String) (cnt : Nat),
      ∀ pq ∈ (outerLoop sim maxC rem gs proc cnt).calls,
        ∃ s t, List.IsSuffix (s :: t) rem ∧ pq.1 = s.path ∧ (∃ r ∈ t, pq.2 = r.path) ∧
          ∃ tl, (s :: tl) ∈ (outerLoop sim maxC rem gs proc cnt).groups := by
  induction rem with
  | nil => intro gs proc cnt pq hpq; simp [outerLoop] at hpq
  | cons r1 rest ih =>
    intro gs proc cnt pq hpq
    by_cases h1 : r1.path ∈ proc
    · rw [outerLoop_skip sim maxC r1 rest gs proc cnt h1] at hpq ⊢
      rcases ih gs proc cnt pq hpq with ⟨s, t, hsuf, hp1, hp2, tl, htl⟩
      exact ⟨s, t, hsuf.trans (List.suffix_cons r1 rest), hp1, hp2, tl, htl⟩
    · rw [outerLoop_seed sim maxC r1 rest gs proc cnt h1] at hpq ⊢
      dsimp only at hpq ⊢
      rcases List.mem_append.mp hpq with hpq | hpq
      · rcases innerScan_calls_mem sim maxC r1 rest [r1] (r1.path :: proc) cnt pq hpq with
          ⟨hp1, r, hr, hr2⟩
        refine ⟨r1, rest, List.suffix_refl _, hp1, ⟨r, hr, hr2⟩, ?_⟩
        rcases innerScan_spec sim maxC r1 rest [r1] (r1.path :: proc) cnt with
          ⟨extra, hg, -, -, -⟩
        refine ⟨extra, ?_⟩
        rcases outerLoop_spec sim maxC rest
            (gs ++ [(innerScan sim maxC r1 rest [r1] (r1.path :: proc) cnt).group])
            (innerScan sim maxC r1 rest [r1] (r1.path :: proc) cnt).processed
            (innerScan sim maxC r1 rest [r1] (r1.path :: proc) cnt).count with
          ⟨news2, hgs2, -, -, -⟩
        rw [hgs2]
        have hge : r1 :: extra = (innerScan sim maxC r1 rest [r1] (r1.path :: proc) cnt).group := by
          rw [hg]; rfl
        rw [hge]
        exact List.mem_append_left _ (List.mem_append_right _ (by simp))
      · rcases ih (gs ++ [(innerScan sim maxC r1 rest [r1] (r1.path :: proc) cnt).group])
            (innerScan sim maxC r1 rest [r1] (r1.path :: proc) cnt).processed
            (innerScan sim maxC r1 rest [r1] (r1.path :: proc) cnt).count pq hpq with
          ⟨s, t, hsuf, hp1, hp2, tl, htl⟩
        exact ⟨s, t, hsuf.trans (List.suffix_cons r1 rest), hp1, hp2, tl, htl⟩

/-! Properties of the complete grouping pass (`finalGroups`). -/

theorem flatten_singletons (l : List PhotoRecord) :
    (l.map (fun r => [r])).flatten = l := by
  induction l with
  | nil => rfl
  | cons r t ih => simp [ih]

/-- Two duplicate-free-by-path record lists with the same members are
permutations of one another. -/
theorem perm_of_path_nodup (l₁ l₂ : List PhotoRecord)
    (h₁ : (l₁.map PhotoRecord.path).Nodup) (h₂ : (l₂.map PhotoRecord.path).Nodup)
    (hmem : ∀ r, r ∈ l₁ ↔ r ∈ l₂) : List.Perm l₁ l₂ := by
  apply List.perm_of_nodup_nodup_toFinset_eq (List.Nodup.of_map _ h₁) (List.Nodup.of_map _ h₂)
  ext a
  simp only [List.mem_toFinset]
  exact hmem a

/-- Every produced group is nonempty, headed by its seed, contains only
valid-scan records, every non-seed member was matched to the seed by the
oracle, and no group exceeds 10 members. -/
theorem finalGroups_spec (sim : String → String → Bool) (valid : List PhotoRecord) :
    ∀ g ∈ finalGroups sim valid, ∃ s tl, g = s :: tl ∧ s ∈ valid ∧
      (∀ r ∈ tl, r ∈ valid ∧ sim s.path r.path = true) ∧ g.length ≤ 10 := by
  intro g hg
  rcases outerLoop_spec sim (valid.length * 5) valid [] [] 0 with ⟨news, hgs, hmem, hperm, hnd⟩
  unfold finalGroups at hg
  rcases List.mem_append.mp hg with hg | hg
  · rw [hgs] at hg
    simp only [List.nil_append] at hg
    exact hmem g hg
  · rcases List.mem_map.mp hg with ⟨r, hr, hreq⟩
    have hrv : r ∈ valid := (List.mem_filter.mp hr).1
    exact ⟨r, [], hreq.symm, hrv, by simp, by rw [← hreq]; simp⟩

/-- With duplicate-free paths, the produced groups partition the valid
scan list: their concatenation is a permutation of it. -/
theorem finalGroups_partition (sim : String → String → Bool) (valid : List PhotoRecord)
    (hnp : (valid.map PhotoRecord.path).Nodup) :
    List.Perm (finalGroups sim valid).flatten valid := by
  rcases outerLoop_spec sim (valid.length * 5) valid [] [] 0 with ⟨news, hgs, hmem, hperm, hnd⟩
  have hgroups : (outerLoop sim (valid.length * 5) valid [] [] 0).groups = news := by
    simpa using hgs
  have hprocperm : List.Perm (outerLoop sim (valid.length * 5) valid [] [] 0).processed
      (news.flatten.map PhotoRecord.path) := by simpa using hperm
  have hndproc : (outerLoop sim (valid.length * 5) valid [] [] 0).processed.Nodup :=
    hnd List.nodup_nil
  have hjoin_mem : ∀ r ∈ news.flatten, r ∈ valid := by
    intro r hr
    rcases List.mem_flatten.mp hr with ⟨g, hgmem, hrg⟩
    rcases hmem g hgmem with ⟨s, tl, hgeq, hs, htl, -⟩
    rw [hgeq] at hrg
    rcases List.mem_cons.mp hrg with h | h
    · rw [h]; exact hs
    · exact (htl r h).1
  have hjoin_keys : (news.flatten.map PhotoRecord.path).Nodup :=
    hprocperm.nodup_iff.mp hndproc
  have h_in : List.Perm news.flatten
      (valid.filter (fun r => decide (r.path ∈ (outerLoop sim (valid.length * 5) valid [] [] 0).processed))) := by
    refine perm_of_path_nodup _ _ hjoin_keys ?_ ?_
    · exact List.Nodup.sublist ((List.filter_sublist valid).map PhotoRecord.path) hnp
    · intro r
      constructor
      · intro hr
        refine List.mem_filter.mpr ⟨hjoin_mem r hr, ?_⟩
        have hk : r.path ∈ news.flatten.map PhotoRecord.path := List.mem_map_of_mem _ hr
        exact decide_eq_true (hprocperm.symm.mem_iff.mp hk)
      · intro hr
        rcases List.mem_filter.mp hr with ⟨hrv, hrp⟩
        have hrp2 : r.path ∈ news.flatten.map PhotoRecord.path :=
          hprocperm.mem_iff.mp (of_decide_eq_true hrp)
        rcases List.mem_map.mp hrp2 with ⟨r2, hr2, hpath⟩
        have : r2 = r := List.inj_on_of_nodup_map hnp (hjoin_mem r2 hr2) hrv hpath
        rw [← this]
        exact hr2
  have hfg : (finalGroups sim valid).flatten =
      news.flatten ++
        valid.filter
          (fun r => decide (r.path ∉ (outerLoop sim (valid.length * 5) valid [] [] 0).processed)) := by
    unfold finalGroups
    rw [List.flatten_append, flatten_singletons, hgroups]
  rw [hfg]
  have hcompl :
      valid.filter
          (fun r => decide (r.path ∉ (outerLoop sim (valid.length * 5) valid [] [] 0).processed)) =
        valid.filter
          (fun r => ! decide (r.path ∈ (outerLoop sim (valid.length * 5) valid [] [] 0).processed)) := by
    apply List.filter_congr
    intro r _
    simp [decide_not]
  rw [hcompl]
  exact (List.Perm.append_right _ h_in).trans
    (List.filter_append_perm
      (fun r => decide (r.path ∈ (outerLoop sim (valid.length * 5) valid [] [] 0).processed)) valid)

/-! Properties of the reducer. -/

theorem reduceGroup_singleton (r : PhotoRecord) :
    reduceGroup [r] = { r with similar_shots := some 1 } := by
  simp [reduceGroup]

theorem reduceGroup_big (g : List PhotoRecord) (h : 1 < g.length) :
    ∃ best restS, sortByScoreDesc g = best :: restS ∧
      reduceGroup g =
        { best with similar_shots := some g.length, alternatives := some (restS.map (fun r => r.file)) } := by
  have hlen : (sortByScoreDesc g).length = g.length := (sortByScoreDesc_perm g).length_eq
  cases hs : sortByScoreDesc g with
  | nil => rw [hs] at hlen; simp at hlen; omega
  | cons best restS =>
    refine ⟨best, restS, rfl, ?_⟩
    unfold reduceGroup
    rw [if_pos h, hs]

/-- The representative of a nonempty group is one of its members (up to
the two grouping fields), and its score is maximal in the group. -/
theorem reduceGroup_score_mem (g : List PhotoRecord) (hne : g ≠ []) :
    ∃ b ∈ g, (reduceGroup g).score = b.score ∧ ∀ r ∈ g, r.score ≤ (reduceGroup g).score := by
  by_cases h : 1 < g.length
  · rcases reduceGroup_big g h with ⟨best, restS, hs, hred⟩
    have hbg : best ∈ g := (sortByScoreDesc_perm g).mem_iff.mp (by rw [hs]; simp)
    refine ⟨best, hbg, by rw [hred], ?_⟩
    intro r hr
    rw [hred]
    exact sortByScoreDesc_head_max g best restS hs r hr
  · cases g with
    | nil => exact absurd rfl hne
    | cons a t =>
      cases t with
      | nil =>
        refine ⟨a, by simp, by rw [reduceGroup_singleton], ?_⟩
        intro r hr
        rcases List.mem_cons.mp hr with hr | hr
        · rw [hr, reduceGroup_singleton]
        · simp at hr
      | cons b t2 => simp at h

/-- Accounting for one reduced group: the representative's file together
with its listed alternatives is a permutation of the files of the whole
group (members carrying no preexisting alternatives). -/
theorem accounted_reduceGroup (g : List PhotoRecord) (hne : g ≠ [])
    (halt : ∀ r ∈ g, r.alternatives = none) :
    List.Perm (accounted (reduceGroup g)) (g.map (fun r => r.file)) := by
  by_cases h : 1 < g.length
  · rcases reduceGroup_big g h with ⟨best, restS, hs, hred⟩
    rw [hred]
    have he : accounted
        { best with similar_shots := some g.length, alternatives := some (restS.map (fun r => r.file)) } =
        (best :: restS).map (fun r => r.file) := rfl
    rw [he, ← hs]
    exact (sortByScoreDesc_perm g).map _
  · cases g with
    | nil => exact absurd rfl hne
    | cons a t =>
      cases t with
      | nil =>
        rw [reduceGroup_singleton a]
        simp [accounted, halt a (List.mem_cons_self a [])]
      | cons b t2 => simp at h

/-- Accounting over a whole list of groups. -/
theorem accounted_concat (gs : List (List PhotoRecord))
    (hne : ∀ g ∈ gs, g ≠ []) (halt : ∀ g ∈ gs, ∀ r ∈ g, r.alternatives = none) :
    List.Perm ((gs.map reduceGroup).map accounted).flatten
      (gs.flatten.map (fun r => r.file)) := by
  induction gs with
  | nil => exact List.Perm.refl _
  | cons g gs ih =>
    simp only [List.map_cons, List.flatten_cons, List.map_append]
    exact (accounted_reduceGroup g (hne g (by simp)) (halt g (by simp))).append
      (ih (fun g2 hg2 => hne g2 (List.mem_cons_of_mem _ hg2))
        (fun g2 hg2 => halt g2 (List.mem_cons_of_mem _ hg2)))

/-- Records without grouping fields account only for their own file. -/
theorem accounted_flatten_of_none (l : List PhotoRecord)
    (h : ∀ r ∈ l, r.alternatives = none) :
    ((l.map accounted).flatten) = l.map (fun r => r.file) := by
  induction l with
  | nil => rfl
  | cons r t ih =>
    simp only [List.map_cons, List.flatten_cons]
    rw [show accounted r = [r.file] by simp [accounted, h r (List.mem_cons_self _ _)]]
    rw [ih (fun x hx => h x (List.mem_cons_of_mem _ hx))]
    rfl

theorem valid_results_eq_self (l : List PhotoRecord) (h : ∀ r ∈ l, 0 < r.score) :
    valid_results l = l := by
  unfold valid_results
  apply List.filter_eq_self.mpr
  exact fun r hr => decide_eq_true (h r hr)

theorem failed_results_eq_nil (l : List PhotoRecord) (h : ∀ r ∈ l, 0 < r.score) :
    failed_results l = [] := by
  unfold failed_results
  apply List.filter_eq_nil_iff.mpr
  intro r hr
  have := h r hr
  simp
  omega

/-- The grouping pass when both guards pass. -/
theorem group_unfold_run (sim : String → String → Bool) (results : List PhotoRecord)
    (h2 : 2 ≤ results.length) (h3 : 2 ≤ (valid_results results).length) :
    group_similar_photos sim true results =
      ((finalGroups sim (valid_results results)).map reduceGroup) ++ failed_results results := by
  unfold group_similar_photos
  rw [if_neg, if_neg]
  · omega
  · push_neg
    exact ⟨by simp, by omega⟩

theorem finalGroups_eq (sim : String → String → Bool) (valid : List PhotoRecord) :
    finalGroups sim valid =
      (outerLoop sim (valid.length * 5) valid [] [] 0).groups ++
        (valid.filter
          (fun r => decide (r.path ∉ (outerLoop sim (valid.length * 5) valid [] [] 0).processed))).map
          (fun r => [r]) := rfl

/-- In a family of groups whose concatenated paths are duplicate-free, a
group head never occurs at a non-head position of any group. -/
theorem head_not_in_tails (FG : List (List PhotoRecord))
    (hkeys : (FG.flatten.map PhotoRecord.path).Nodup) :
    ∀ s tl, (s :: tl) ∈ FG → ∀ g ∈ FG, s.path ∉ (g.drop 1).map PhotoRecord.path := by
  induction FG with
  | nil => intro s tl h; simp at h
  | cons g0 FGt ih =>
    intro s tl hstl g hg hbad
    rw [List.flatten_cons, List.map_append, List.nodup_append] at hkeys
    obtain ⟨hn0, hnt, hdisj⟩ := hkeys
    have tail_mem : ∀ h : List PhotoRecord, s.path ∈ (h.drop 1).map PhotoRecord.path →
        s.path ∈ h.map PhotoRecord.path := by
      intro h hm
      rcases List.mem_map.mp hm with ⟨r, hr, hrp⟩
      exact hrp ▸ List.mem_map_of_mem _ (List.drop_subset 1 h hr)
    have flat_mem : ∀ h ∈ FGt, s.path ∈ h.map PhotoRecord.path →
        s.path ∈ FGt.flatten.map PhotoRecord.path := by
      intro h hh hm
      rcases List.mem_map.mp hm with ⟨r, hr, hrp⟩
      exact hrp ▸ List.mem_map_of_mem _ (List.mem_flatten.mpr ⟨h, hh, hr⟩)
    rcases List.mem_cons.mp hstl with hstl | hstl <;> rcases List.mem_cons.mp hg with hg | hg
    · rw [hg] at hbad
      rw [← hstl] at hbad hn0
      simp only [List.drop_one, List.tail_cons] at hbad
      simp only [List.map_cons, List.nodup_cons] at hn0
      exact hn0.1 hbad
    · refine hdisj ?_ (flat_mem g hg (tail_mem g hbad))
      rw [← hstl]
      simp
    · rw [hg] at hbad
      exact hdisj (tail_mem g0 hbad) (flat_mem (s :: tl) hstl (by simp))
    · exact ih hnt s tl hstl g hg hbad

/-! Claims C2, C3, C4. -/

/-- C2, counterexample to the claim as stated at pipeline level: a record
whose scoring failed (score 0) is not retained in the final output of
`evaluate_folder` — line 426 (`if result and result.get('score', 0) > 0`)
drops it before grouping, so the output holds only the two valid records
and the failed record `p3` is gone. -/
theorem c2_counterexample :
    evaluate_folder_records (fun _ _ => false) true
      [⟨"p1", "f1", 5, none, none⟩, ⟨"p2", "f2", 3, none, none⟩, ⟨"p3", "f3", 0, none, none⟩] =
      [⟨"p1", "f1", 5, some 1, none⟩, ⟨"p2", "f2", 3, some 1, none⟩] := by decide

/-- C2 amended: within `group_similar_photos` itself (the function that
implements the append), when grouping actually runs (detection on, at
least 2 records, at least 2 valid), every failed record (score == 0) is
excluded from the grouping input and appended verbatim at the end of the
output, after all representatives (each of which has score > 0), in the
input's relative order and with fields untouched.  In the full pipeline
this retention is unobservable: `evaluate_folder` filters failed records
out before calling the grouper (see the counterexample). -/
theorem c2_failed_appended (sim : String → String → Bool) (results : List PhotoRecord)
    (h2 : 2 ≤ results.length) (h3 : 2 ≤ (valid_results results).length) :
    ∃ reps, group_similar_photos sim true results = reps ++ failed_results results ∧
      ∀ rep ∈ reps, 0 < rep.score := by
  refine ⟨(finalGroups sim (valid_results results)).map reduceGroup,
    group_unfold_run sim results h2 h3, ?_⟩
  intro rep hrep
  rcases List.mem_map.mp hrep with ⟨g, hg, hred⟩
  rcases finalGroups_spec sim (valid_results results) g hg with ⟨s, tl, hgeq, hs, htl, -⟩
  have hne : g ≠ [] := by rw [hgeq]; simp
  rcases reduceGroup_score_mem g hne with ⟨b, hb, hbs, -⟩
  have hbv : b ∈ valid_results results := by
    rw [hgeq] at hb
    rcases List.mem_cons.mp hb with hb | hb
    · rw [hb]; exact hs
    · exact (htl b hb).1
  have hbpos : 0 < b.score := of_decide_eq_true (List.mem_filter.mp hbv).2
  rw [← hred]
  omega

theorem c2_failed_appended_witness :
    ∃ reps,
      group_similar_photos (fun _ _ => false) true
          [⟨"w1", "wf1", 7, none, none⟩, ⟨"w2", "wf2", 2, none, none⟩,
           ⟨"w3", "wf3", 0, none, none⟩] =
        reps ++ failed_results
          [⟨"w1", "wf1", 7, none, none⟩, ⟨"w2", "wf2", 2, none, none⟩,
           ⟨"w3", "wf3", 0, none, none⟩] ∧
      ∀ rep ∈ reps, 0 < rep.score :=
  c2_failed_appended (fun _ _ => false)
    [⟨"w1", "wf1", 7, none, none⟩, ⟨"w2", "wf2", 2, none, none⟩, ⟨"w3", "wf3", 0, none, none⟩]
    (by decide) (by decide)

/-- C3: across one whole grouping run the number of oracle comparisons
actually performed (`are_photos_similar` invocations, the recorded
`calls`) never exceeds `5 × number of valid records`; moreover once the
shared counter has exceeded the budget, no oracle comparison happens at
all — for the remaining candidates of the current seed and for all
remaining seeds alike. -/
theorem c3_comparison_budget (sim : String → String → Bool) (valid : List PhotoRecord) :
    (outerLoop sim (valid.length * 5) valid [] [] 0).calls.length ≤ 5 * valid.length ∧
    (∀ (rem : List PhotoRecord) (gs : List (List PhotoRecord)) (proc : List String) (cnt : Nat),
        valid.length * 5 < cnt →
        (outerLoop sim (valid.length * 5) rem gs proc cnt).calls.length = 0) ∧
    (∀ (seed : PhotoRecord) (rest group : List PhotoRecord) (proc : List String) (cnt : Nat),
        valid.length * 5 < cnt →
        (innerScan sim (valid.length * 5) seed rest group proc cnt).calls.length = 0) := by
  refine ⟨?_, ?_, ?_⟩
  · have h := (outerLoop_count sim (valid.length * 5) valid [] [] 0).2
    omega
  · intro rem gs proc cnt h
    have h2 := (outerLoop_count sim (valid.length * 5) rem gs proc cnt).2
    omega
  · intro seed rest group proc cnt h
    have h2 := (innerScan_count sim (valid.length * 5) seed rest group proc cnt).2.2
    omega

theorem c3_comparison_budget_witness :
    (outerLoop (fun _ _ => true) (2 * 5)
        [⟨"y1", "y1", 2, none, none⟩, ⟨"y2", "y2", 1, none, none⟩] [] [] 0).calls.length ≤
      5 * 2 ∧
    (outerLoop (fun _ _ => true) (2 * 5)
        [⟨"y1", "y1", 2, none, none⟩, ⟨"y2", "y2", 1, none, none⟩] [] [] 11).calls.length = 0 ∧
    (innerScan (fun _ _ => true) (2 * 5) ⟨"y1", "y1", 2, none, none⟩
        [⟨"y2", "y2", 1, none, none⟩] [⟨"y1", "y1", 2, none, none⟩] [] 11).calls.length = 0 := by
  have h := c3_comparison_budget (fun _ _ => true)
    [⟨"y1", "y1", 2, none, none⟩, ⟨"y2", "y2", 1, none, none⟩]
  exact ⟨h.1,
    h.2.1 [⟨"y1", "y1", 2, none, none⟩, ⟨"y2", "y2", 1, none, none⟩] [] [] 11 (by decide),
    h.2.2 ⟨"y1", "y1", 2, none, none⟩ [⟨"y2", "y2", 1, none, none⟩]
      [⟨"y1", "y1", 2, none, none⟩] [] 11 (by decide)⟩

/-- C4: every group produced by a grouping run has at most 10 members;
once a group holds 10 members the scan adds no further candidate to it
(the scan leaves it untouched); and processing of the other seeds
continues — with duplicate-free paths the produced groups still cover
every valid record exactly once. -/
theorem c4_group_size_cap (sim : String → String → Bool) (valid : List PhotoRecord)
    (hnp : (valid.map PhotoRecord.path).Nodup) :
    (∀ g ∈ finalGroups sim valid, g.length ≤ 10) ∧
    (∀ (seed : PhotoRecord) (rest group : List PhotoRecord) (proc : List String) (cnt : Nat),
        10 ≤ group.length →
        (innerScan sim (valid.length * 5) seed rest group proc cnt).group = group) ∧
    List.Perm (finalGroups sim valid).flatten valid := by
  refine ⟨?_, ?_, finalGroups_partition sim valid hnp⟩
  · intro g hg
    rcases finalGroups_spec sim valid g hg with ⟨s, tl, -, -, -, hlen⟩
    exact hlen
  · intro seed rest group proc cnt h
    exact innerScan_group_stops sim (valid.length * 5) seed rest group proc cnt h

theorem c4_group_size_cap_witness :
    (∀ g ∈ finalGroups (fun _ _ => true)
        [⟨"z1", "z1", 7, none, none⟩, ⟨"z2", "z2", 6, none, none⟩], g.length ≤ 10) ∧
    (∀ (seed : PhotoRecord) (rest group : List PhotoRecord) (proc : List String) (cnt : Nat),
        10 ≤ group.length →
        (innerScan (fun _ _ => true)
          (([⟨"z1", "z1", 7, none, none⟩, ⟨"z2", "z2", 6, none, none⟩] :
            List PhotoRecord).length * 5) seed rest group proc cnt).group = group) ∧
    List.Perm (finalGroups (fun _ _ => true)
        [⟨"z1", "z1", 7, none, none⟩, ⟨"z2", "z2", 6, none, none⟩]).flatten
      [⟨"z1", "z1", 7, none, none⟩, ⟨"z2", "z2", 6, none, none⟩] :=
  c4_group_size_cap (fun _ _ => true)
    [⟨"z1", "z1", 7, none, none⟩, ⟨"z2", "z2", 6, none, none⟩] (by decide)

/-! Claims C5 and C6. -/

/-- C5: grouping is star-shaped and scan-ordered.  Every oracle query of
a run on the valid records of `results` (with duplicate-free paths) pairs
the path of a group's seed with the path of a record positioned strictly
after that seed in the original list; every non-seed group member was
admitted exactly because the oracle judged it similar to the group's
seed; and no query ever involves a non-seed member of any group as its
first component — in particular the oracle is never queried on a pair of
two non-seed members of the same group. -/
theorem c5_star_shaped (sim : String → String → Bool) (results : List PhotoRecord)
    (hnp : ((valid_results results).map PhotoRecord.path).Nodup) :
    (∀ pq ∈ (outerLoop sim ((valid_results results).length * 5)
        (valid_results results) [] [] 0).calls,
        ∃ s r, pq = (s.path, r.path) ∧ List.Sublist [s, r] results ∧
          ∃ tl, (s :: tl) ∈ finalGroups sim (valid_results results)) ∧
    (∀ g ∈ finalGroups sim (valid_results results), ∃ s tl, g = s :: tl ∧
        ∀ r ∈ tl, sim s.path r.path = true) ∧
    (∀ pq ∈ (outerLoop sim ((valid_results results).length * 5)
        (valid_results results) [] [] 0).calls,
        ∀ g ∈ finalGroups sim (valid_results results),
          pq.1 ∉ (g.drop 1).map PhotoRecord.path) := by
  refine ⟨?_, ?_, ?_⟩
  · intro pq hpq
    rcases outerLoop_calls_mem sim ((valid_results results).length * 5) (valid_results results)
        [] [] 0 pq hpq with ⟨s, t, hsuf, hp1, ⟨r, hr, hp2⟩, tl, htl⟩
    refine ⟨s, r, ?_, ?_, tl, ?_⟩
    · exact Prod.ext hp1 hp2
    · have h1 : List.Sublist [r] t := List.singleton_sublist.mpr hr
      have h2 : List.Sublist [s, r] (s :: t) := h1.cons₂ s
      have h3 : List.Sublist (s :: t) (valid_results results) := hsuf.sublist
      have h4 : List.Sublist (valid_results results) results := List.filter_sublist results
      exact (h2.trans h3).trans h4
    · rw [finalGroups_eq]
      exact List.mem_append_left _ htl
  · intro g hg
    rcases finalGroups_spec sim (valid_results results) g hg with ⟨s, tl, hgeq, -, htl, -⟩
    exact ⟨s, tl, hgeq, fun r hr => (htl r hr).2⟩
  · intro pq hpq g hg
    rcases outerLoop_calls_mem sim ((valid_results results).length * 5) (valid_results results)
        [] [] 0 pq hpq with ⟨s, t, hsuf, hp1, -, tl, htl⟩
    have hstl : (s :: tl) ∈ finalGroups sim (valid_results results) := by
      rw [finalGroups_eq]
      exact List.mem_append_left _ htl
    have hkeys : ((finalGroups sim (valid_results results)).flatten.map PhotoRecord.path).Nodup :=
      ((finalGroups_partition sim (valid_results results) hnp).map PhotoRecord.path).nodup_iff.mpr hnp
    rw [hp1]
    exact head_not_in_tails _ hkeys s tl hstl g hg

theorem c5_star_shaped_witness :
    (∀ pq ∈ (outerLoop (fun _ _ => true)
        ((valid_results [⟨"v1", "v1", 5, none, none⟩, ⟨"v2", "v2", 4, none, none⟩]).length * 5)
        (valid_results [⟨"v1", "v1", 5, none, none⟩, ⟨"v2", "v2", 4, none, none⟩]) [] [] 0).calls,
        ∃ s r, pq = (s.path, r.path) ∧
          List.Sublist [s, r] [⟨"v1", "v1", 5, none, none⟩, ⟨"v2", "v2", 4, none, none⟩] ∧
          ∃ tl, (s :: tl) ∈ finalGroups (fun _ _ => true)
            (valid_results [⟨"v1", "v1", 5, none, none⟩, ⟨"v2", "v2", 4, none, none⟩])) ∧
    (∀ g ∈ finalGroups (fun _ _ => true)
        (valid_results [⟨"v1", "v1", 5, none, none⟩, ⟨"v2", "v2", 4, none, none⟩]),
        ∃ s tl, g = s :: tl ∧ ∀ r ∈ tl, (fun _ _ => true) s.path r.path = true) ∧
    (∀ pq ∈ (outerLoop (fun _ _ => true)
        ((valid_results [⟨"v1", "v1", 5, none, none⟩, ⟨"v2", "v2", 4, none, none⟩]).length * 5)
        (valid_results [⟨"v1", "v1", 5, none, none⟩, ⟨"v2", "v2", 4, none, none⟩]) [] [] 0).calls,
        ∀ g ∈ finalGroups (fun _ _ => true)
          (valid_results [⟨"v1", "v1", 5, none, none⟩, ⟨"v2", "v2", 4, none, none⟩]),
          pq.1 ∉ (g.drop 1).map PhotoRecord.path) :=
  c5_star_shaped (fun _ _ => true)
    [⟨"v1", "v1", 5, none, none⟩, ⟨"v2", "v2", 4, none, none⟩] (by decide)

/-- C6: the reducer keeps exactly one representative per group.  A group
of size 1 yields its sole member with `similar_shots = 1` and untouched
(absent) alternatives.  A group of size k > 1 is stably sorted by score
descending (a permutation of the group, sorted, with equal-score records
kept in their original relative order); the representative is the head of
that sort — a member of the group whose score is ≥ every member's
score — and it carries `similar_shots = k` and as `alternatives` the
display names of all other members in sorted order. -/
theorem c6_reducer (g : List PhotoRecord) :
    (∀ r, g = [r] → reduceGroup g = { r with similar_shots := some 1 }) ∧
    (1 < g.length →
      ∃ best restS, sortByScoreDesc g = best :: restS ∧
        reduceGroup g =
          { best with similar_shots := some g.length, alternatives := some (restS.map (fun r => r.file)) } ∧
        best ∈ g ∧ (∀ r ∈ g, r.score ≤ best.score) ∧
        List.Perm (best :: restS) g ∧
        List.Pairwise (fun a b => b.score ≤ a.score) (best :: restS) ∧
        (∀ s, (best :: restS).filter (fun r => decide (r.score = s)) =
          g.filter (fun r => decide (r.score = s)))) := by
  constructor
  · intro r hr
    rw [hr]
    exact reduceGroup_singleton r
  · intro h
    rcases reduceGroup_big g h with ⟨best, restS, hs, hred⟩
    refine ⟨best, restS, hs, hred, ?_, ?_, ?_, ?_, ?_⟩
    · exact (sortByScoreDesc_perm g).mem_iff.mp (by rw [hs]; simp)
    · exact sortByScoreDesc_head_max g best restS hs
    · rw [← hs]; exact sortByScoreDesc_perm g
    · rw [← hs]; exact sortByScoreDesc_pairwise g
    · intro s; rw [← hs]; exact sortByScoreDesc_stable g s

theorem c6_reducer_witness :
    reduceGroup [(⟨"u1", "uf1", 4, none, none⟩ : PhotoRecord)] =
      { (⟨"u1", "uf1", 4, none, none⟩ : PhotoRecord) with similar_shots := some 1 } ∧
    (∃ (best : PhotoRecord) (restS : List PhotoRecord),
      sortByScoreDesc [⟨"u2", "uf2", 3, none, none⟩, ⟨"u3", "uf3", 8, none, none⟩] =
        best :: restS ∧
      reduceGroup [⟨"u2", "uf2", 3, none, none⟩, ⟨"u3", "uf3", 8, none, none⟩] =
        { best with
            similar_shots :=
              some ([⟨"u2", "uf2", 3, none, none⟩, ⟨"u3", "uf3", 8, none, none⟩] :
                List PhotoRecord).length,
            alternatives := some (restS.map (fun r => r.file)) } ∧
      best ∈ ([⟨"u2", "uf2", 3, none, none⟩, ⟨"u3", "uf3", 8, none, none⟩] : List PhotoRecord) ∧
      (∀ r ∈ ([⟨"u2", "uf2", 3, none, none⟩, ⟨"u3", "uf3", 8, none, none⟩] : List PhotoRecord),
        r.score ≤ best.score) ∧
      List.Perm (best :: restS) [⟨"u2", "uf2", 3, none, none⟩, ⟨"u3", "uf3", 8, none, none⟩] ∧
      List.Pairwise (fun a b => b.score ≤ a.score) (best :: restS) ∧
      (∀ s, (best :: restS).filter (fun r => decide (r.score = s)) =
        ([⟨"u2", "uf2", 3, none, none⟩, ⟨"u3", "uf3", 8, none, none⟩] :
          List PhotoRecord).filter (fun r => decide (r.score = s)))) :=
  ⟨(c6_reducer [⟨"u1", "uf1", 4, none, none⟩]).1 ⟨"u1", "uf1", 4, none, none⟩ rfl,
   (c6_reducer [⟨"u2", "uf2", 3, none, none⟩, ⟨"u3", "uf3", 8, none, none⟩]).2 (by decide)⟩

/-! Claim C1. -/

theorem evaluate_folder_records_eq (sim : String → String → Bool) (detect : Bool)
    (scored : List PhotoRecord) :
    evaluate_folder_records sim detect scored =
      if detect = true
      then sortByScoreDesc (group_similar_photos sim detect
        (sortByScoreDesc (scored.filter (fun r => decide (0 < r.score)))))
      else sortByScoreDesc (scored.filter (fun r => decide (0 < r.score))) := rfl

/-- C1, counterexample to the claim as stated: a failed record (score 0)
does not appear in the final output of the pipeline at all — line 426 of
`evaluate_folder` drops it, so the output of a folder containing exactly
one failed photo is empty rather than holding that record once. -/
theorem c1_counterexample :
    evaluate_folder_records (fun _ _ => false) true [⟨"q1", "g1", 0, none, none⟩] = [] := by
  decide

/-- C1 amended: in the pipeline (`evaluate_folder` feeding
`group_similar_photos`), every VALID original record (score > 0) is
accounted for exactly once in the final output — either as a kept record
or as exactly one entry of a kept record's `alternatives` — provided the
valid records have pairwise distinct paths and the scorer attached no
`alternatives` field: the multiset of display names accounted for by the
output equals the multiset of display names of the valid input records.
Failed records (score == 0), contrary to the original claim, are dropped
by `evaluate_folder` before grouping and appear nowhere in the output:
every output record has score > 0. -/
theorem c1_valid_accounted (sim : String → String → Bool) (detect : Bool)
    (scored : List PhotoRecord)
    (hnp : ((scored.filter (fun r => decide (0 < r.score))).map PhotoRecord.path).Nodup)
    (halt : ∀ r ∈ scored, r.alternatives = none) :
    List.Perm (((evaluate_folder_records sim detect scored).map accounted).flatten)
      ((scored.filter (fun r => decide (0 < r.score))).map (fun r => r.file)) ∧
    (∀ r ∈ evaluate_folder_records sim detect scored, 0 < r.score) := by
  have hmemres : ∀ r ∈ scored.filter (fun r => decide (0 < r.score)), 0 < r.score := by
    intro r hr
    exact of_decide_eq_true (List.mem_filter.mp hr).2
  have haltres : ∀ r ∈ scored.filter (fun r => decide (0 < r.score)), r.alternatives = none := by
    intro r hr
    exact halt r (List.mem_filter.mp hr).1
  have hmemsorted :
      ∀ r ∈ sortByScoreDesc (scored.filter (fun r => decide (0 < r.score))), 0 < r.score := by
    intro r hr
    exact hmemres r ((sortByScoreDesc_perm _).mem_iff.mp hr)
  have haltsorted :
      ∀ r ∈ sortByScoreDesc (scored.filter (fun r => decide (0 < r.score))),
        r.alternatives = none := by
    intro r hr
    exact haltres r ((sortByScoreDesc_perm _).mem_iff.mp hr)
  have hnps :
      ((sortByScoreDesc (scored.filter (fun r => decide (0 < r.score)))).map
        PhotoRecord.path).Nodup :=
    ((sortByScoreDesc_perm _).map PhotoRecord.path).nodup_iff.mpr hnp
  by_cases hd : detect = true
  · subst hd
    rw [evaluate_folder_records_eq, if_pos rfl]
    by_cases hlen : (sortByScoreDesc (scored.filter (fun r => decide (0 < r.score)))).length < 2
    · rw [group_similar_photos_id sim true _ (Or.inr (Or.inl hlen))]
      constructor
      · have haltout :
            ∀ r ∈ sortByScoreDesc (sortByScoreDesc (scored.filter (fun r => decide (0 < r.score)))),
              r.alternatives = none := by
          intro r hr
          exact haltsorted r ((sortByScoreDesc_perm _).mem_iff.mp hr)
        rw [accounted_flatten_of_none _ haltout]
        exact ((sortByScoreDesc_perm _).trans (sortByScoreDesc_perm _)).map _
      · intro r hr
        exact hmemsorted r ((sortByScoreDesc_perm _).mem_iff.mp hr)
    · have hvr : valid_results (sortByScoreDesc (scored.filter (fun r => decide (0 < r.score)))) =
          sortByScoreDesc (scored.filter (fun r => decide (0 < r.score))) :=
        valid_results_eq_self _ hmemsorted
      have h3 : 2 ≤ (valid_results
          (sortByScoreDesc (scored.filter (fun r => decide (0 < r.score))))).length := by
        rw [hvr]; omega
      have hrun := group_unfold_run sim
        (sortByScoreDesc (scored.filter (fun r => decide (0 < r.score)))) (by omega) h3
      have hfail : failed_results
          (sortByScoreDesc (scored.filter (fun r => decide (0 < r.score)))) = [] :=
        failed_results_eq_nil _ hmemsorted
      rw [hfail, List.append_nil, hvr] at hrun
      have hspec := finalGroups_spec sim
        (sortByScoreDesc (scored.filter (fun r => decide (0 < r.score))))
      have hne : ∀ g ∈ finalGroups sim
          (sortByScoreDesc (scored.filter (fun r => decide (0 < r.score)))), g ≠ [] := by
        intro g hg
        rcases hspec g hg with ⟨s, tl, hgeq, -⟩
        rw [hgeq]; simp
      have hgm : ∀ g ∈ finalGroups sim
          (sortByScoreDesc (scored.filter (fun r => decide (0 < r.score)))),
          ∀ r ∈ g, r ∈ sortByScoreDesc (scored.filter (fun r => decide (0 < r.score))) := by
        intro g hg r hr
        rcases hspec g hg with ⟨s, tl, hgeq, hs, htl, -⟩
        rw [hgeq] at hr
        rcases List.mem_cons.mp hr with hr | hr
        · rw [hr]; exact hs
        · exact (htl r hr).1
      have haltg : ∀ g ∈ finalGroups sim
          (sortByScoreDesc (scored.filter (fun r => decide (0 < r.score)))),
          ∀ r ∈ g, r.alternatives = none :=
        fun g hg r hr => haltsorted r (hgm g hg r hr)
      have hacc := accounted_concat
        (finalGroups sim (sortByScoreDesc (scored.filter (fun r => decide (0 < r.score)))))
        hne haltg
      have hpart := finalGroups_partition sim
        (sortByScoreDesc (scored.filter (fun r => decide (0 < r.score)))) hnps
      constructor
      · refine (((sortByScoreDesc_perm _).map accounted).flatten).trans ?_
        rw [hrun]
        refine hacc.trans ?_
        exact (hpart.map _).trans ((sortByScoreDesc_perm _).map _)
      · intro r hr
        have hrG : r ∈ group_similar_photos sim true
            (sortByScoreDesc (scored.filter (fun r => decide (0 < r.score)))) :=
          (sortByScoreDesc_perm _).mem_iff.mp hr
        rw [hrun] at hrG
        rcases List.mem_map.mp hrG with ⟨g, hg, hred⟩
        rcases reduceGroup_score_mem g (hne g hg) with ⟨b, hb, hbs, -⟩
        have hbpos : 0 < b.score := hmemsorted b (hgm g hg b hb)
        rw [← hred]
        omega
  · have hd2 : detect = false := by
      cases detect
      · rfl
      · exact absurd rfl hd
    rw [evaluate_folder_records_eq, if_neg hd]
    constructor
    · rw [accounted_flatten_of_none _ haltsorted]
      exact (sortByScoreDesc_perm _).map _
    · exact hmemsorted

theorem c1_valid_accounted_witness :
    List.Perm
      (((evaluate_folder_records (fun _ _ => false) true
          [⟨"a1", "af1", 6, none, none⟩, ⟨"a2", "af2", 1, none, none⟩]).map accounted).flatten)
      ((([⟨"a1", "af1", 6, none, none⟩, ⟨"a2", "af2", 1, none, none⟩] :
          List PhotoRecord).filter (fun r => decide (0 < r.score))).map (fun r => r.file)) ∧
    (∀ r ∈ evaluate_folder_records (fun _ _ => false) true
        [⟨"a1", "af1", 6, none, none⟩, ⟨"a2", "af2", 1, none, none⟩], 0 < r.score) :=
  c1_valid_accounted (fun _ _ => false) true
    [⟨"a1", "af1", 6, none, none⟩, ⟨"a2", "af2", 1, none, none⟩] (by decide) (by decide)

/-! Claim C8. -/

/-- C8, counterexample to the claim as stated: for a file that exists but
cannot be read, `encode_image` fails (returns `None`), yet evaluation
does NOT yield a null result — `evaluate_with_ollama` still posts the
request (with a `None` payload), and if the server answers 200 with a
parseable text the photo receives a positive score and so enters scoring
and grouping input. -/
theorem c8_counterexample :
    evaluate_photo (fun enc => evaluate_with_ollama enc (HttpOutcome.success 200 "score: 87"))
      "p" "f" FileStatus.unreadable = some ⟨"p", "f", 87, none, none⟩ := by
  decide

/-- C8 amended: only a MISSING file makes `evaluate_photo` return a null
result (and such a photo is thereby excluded from scoring and grouping);
a photo whose encoding failed (missing or unreadable) is excluded from
similarity comparisons — `are_photos_similar` answers `false` whenever
either side fails to encode — but an existing unreadable file is still
sent to the scorer and may receive a score. -/
theorem c8_missing_null (scorer : Option String → EvalAnswer) (path file : String)
    (st st2 : FileStatus) (detect uo : Bool) (oc : HttpOutcome) :
    (st = FileStatus.missing → evaluate_photo scorer path file st = none) ∧
    (encode_image st = none →
      are_photos_similar detect uo st st2 oc = false ∧
      are_photos_similar detect uo st2 st oc = false) := by
  constructor
  · intro h
    rw [h]
    simp [evaluate_photo]
  · intro h
    cases st with
    | readable c => simp [encode_image] at h
    | missing =>
      constructor <;> (cases detect <;> cases st2 <;> simp [are_photos_similar, encode_image])
    | unreadable =>
      constructor <;> (cases detect <;> cases st2 <;> simp [are_photos_similar, encode_image])

theorem c8_missing_null_witness :
    evaluate_photo (fun _ => ⟨50, "r"⟩) "pw" "fw" FileStatus.missing = none ∧
    are_photos_similar true true FileStatus.unreadable (FileStatus.readable "img")
      HttpOutcome.error = false ∧
    are_photos_similar true true (FileStatus.readable "img") FileStatus.unreadable
      HttpOutcome.error = false :=
  ⟨(c8_missing_null (fun _ => ⟨50, "r"⟩) "pw" "fw" FileStatus.missing
      (FileStatus.readable "img") true true HttpOutcome.error).1 rfl,
   ((c8_missing_null (fun _ => ⟨50, "r"⟩) "pw" "fw" FileStatus.unreadable
      (FileStatus.readable "img") true true HttpOutcome.error).2 (by decide)).1,
   ((c8_missing_null (fun _ => ⟨50, "r"⟩) "pw" "fw" FileStatus.unreadable
      (FileStatus.readable "img") true true HttpOutcome.error).2 (by decide)).2⟩
